import Mathlib

/-!
Verification of the unified-diff patch parser and applier specified for this
repository.  The parser implementation itself (exercised through
`patchInternals.parse` and `apply` in the test suite) is not part of the
reviewed sources, so the definitions below are modelled from the
specification (sections 3, 4.1, 4.2, 4.3 and 4.4) and checked against the
concrete fixtures and expected documents of the test suite.
-/

namespace Patch

/-- Modelled from the spec (section 3): the classification of a hunk body
part, one of context / insertion / deletion. -/
inductive PartType
  | context
  | insertion
  | deletion
deriving DecidableEq, Repr

/-- Modelled from the spec (section 3): a start line number together with a
line count, as written on one side of a hunk header. -/
structure LineRange where
  start : Nat
  len : Nat
deriving DecidableEq, Repr

/-- Modelled from the spec (section 3): `HunkHeader` records the original and
patched ranges of a `@@ -start,len +start,len @@` line. -/
structure HunkHeader where
  original : LineRange
  patched : LineRange
deriving DecidableEq, Repr

/-- Modelled from the spec (section 3): a run of equally classified lines in
a hunk body, with the trailing no-newline marker flag. -/
structure HunkBodyPart where
  type : PartType
  lines : List String
  no_newline_at_end_of_file : Bool
deriving DecidableEq, Repr

/-- Modelled from the spec (section 3): a hunk is a header plus its ordered
body parts. -/
structure Hunk where
  header : HunkHeader
  parts : List HunkBodyPart
deriving DecidableEq, Repr

/-- Modelled from the spec (glossary): the executable-permission state of a
file, a binary flag. -/
inductive FileMode
  | executable
  | non_executable
deriving DecidableEq, Repr

/-- Modelled from the spec (section 3): the tagged variant of patch parts.
Hashes are optional; legacy old-style patches carry none. -/
inductive PatchPart
  | file_patch (path : String) (hunks : List Hunk)
      (before_hash after_hash : Option String)
  | file_creation (path : String) (mode : FileMode) (hunk : Hunk)
      (hash : Option String)
  | file_deletion (path : String) (mode : FileMode) (hunk : Hunk)
      (hash : Option String)
  | file_rename (from_path to_path : String)
  | file_mode_change (path : String) (old_mode new_mode : FileMode)
deriving DecidableEq, Repr

/-- Modelled from the spec (section 3): a parsed patch document, the ordered
sequence of its parts. -/
structure PatchFile where
  parts : List PatchPart
deriving DecidableEq, Repr

/-- Modelled from the spec (section 4.2): the error kinds a parse can fail
with. -/
inductive ParseError
  | malformedHeader
  | inconsistentHunkCounts
  | unexpectedEOF
  | unknownLine
deriving DecidableEq, Repr

/-- Does the character list `l` start with the character list `p`? -/
def startsWithChars : List Char → List Char → Bool
  | [], _ => true
  | _ :: _, [] => false
  | p :: ps, c :: cs => p = c && startsWithChars ps cs

/-- Does the string `l` start with the string `p`? -/
def startsWithS (l p : String) : Bool := startsWithChars p.data l.data

/-- Drop the first `n` characters of a string. -/
def dropS (l : String) (n : Nat) : String := String.mk (l.data.drop n)

/-- Remove a single trailing carriage return, if present. -/
def stripCRAux : List Char → List Char
  | [] => []
  | ['\r'] => []
  | c :: cs => c :: stripCRAux cs

/-- Modelled from the spec (section 3): metadata payloads of CRLF input are
interpreted as if the input were LF, so a trailing CR is removed from them.
Body content lines keep their CR verbatim. -/
def stripCR (s : String) : String := String.mk (stripCRAux s.data)

/-- Split a character list at every newline, keeping all other characters
(in particular carriage returns) inside the records. -/
def splitLinesAux : List Char → List Char → List String
  | [], acc => [String.mk acc.reverse]
  | '\n' :: cs, acc => String.mk acc.reverse :: splitLinesAux cs []
  | c :: cs, acc => splitLinesAux cs (c :: acc)

/-- Drop a final empty record, so that a trailing newline terminates the last
line instead of opening an empty one. -/
def dropFinalEmpty : List String → List String
  | [] => []
  | [l] => if l = "" then [] else [l]
  | l :: ls => l :: dropFinalEmpty ls

/-- Modelled from the spec (section 4.1): split raw patch text into physical
lines, the newline being the record separator; content keeps embedded CR
characters. -/
def splitLines (s : String) : List String :=
  dropFinalEmpty (splitLinesAux s.data [])

/-- Take the longest run of decimal digits at the head of the list. -/
def takeDigits : List Char → List Char × List Char
  | [] => ([], [])
  | c :: cs =>
    if c.isDigit then
      let r := takeDigits cs
      (c :: r.1, r.2)
    else ([], c :: cs)

/-- Numeric value of a decimal digit run. -/
def digitsVal (ds : List Char) : Nat :=
  ds.foldl (fun a c => a * 10 + (c.toNat - 48)) 0

/-- Modelled from the spec (section 4.2): parse `<start>(,<len>)?`, a missing
`,<len>` defaulting the length to 1. -/
def parseNumPair (cs : List Char) : Option (Nat × Nat × List Char) :=
  match takeDigits cs with
  | ([], _) => none
  | (d :: ds, rest) =>
    match rest with
    | ',' :: rest2 =>
      match takeDigits rest2 with
      | ([], _) => none
      | (e :: es, rest3) => some (digitsVal (d :: ds), digitsVal (e :: es), rest3)
    | _ => some (digitsVal (d :: ds), 1, rest)

/-- Modelled from the spec (section 4.2): parse a hunk header line by the
fixed grammar, requiring the closing space-`@@` and allowing arbitrary
trailing text after it; a recorded start of 0 is normalized to 1 (the fixture
for file creation expects `original.start = 1` from `@@ -0,0 +1 @@`). -/
def parseHunkHeader (l : String) : Option HunkHeader :=
  match l.data with
  | '@' :: '@' :: ' ' :: '-' :: cs =>
    match parseNumPair cs with
    | none => none
    | some (os, ol, r1) =>
      match r1 with
      | ' ' :: '+' :: r2 =>
        match parseNumPair r2 with
        | none => none
        | some (ps, pl, r3) =>
          match r3 with
          | ' ' :: '@' :: '@' :: _ => some ⟨⟨max os 1, ol⟩, ⟨max ps 1, pl⟩⟩
          | _ => none
      | _ => none
  | _ => none

/-- A classified hunk body line, or the no-newline-at-end-of-file marker. -/
inductive BodyToken
  | bline (t : PartType) (content : String)
  | marker
deriving DecidableEq, Repr

/-- Prepend a token to the token list of a body-collection result. -/
def consTok (t : BodyToken) :
    Except ParseError (List BodyToken × List String) →
    Except ParseError (List BodyToken × List String)
  | .error e => .error e
  | .ok (ts, rest) => .ok (t :: ts, rest)

/-- Modelled from the spec (sections 4.1, 4.2): consume the body lines of one
hunk, classifying by leading marker (space for context, `-` for deletion,
`+` for insertion, backslash for the no-newline marker) and tolerating a
fully empty line as a blank context line; consumption is bounded by the two
remaining line budgets of the header, and one trailing no-newline marker may
follow the body. -/
def collectBody : List String → Nat → Nat →
    Except ParseError (List BodyToken × List String)
  | lines, 0, 0 =>
    match lines with
    | [] => .ok ([], [])
    | l :: rest =>
      if startsWithS l "\\" then .ok ([.marker], rest) else .ok ([], l :: rest)
  | [], _, _ => .error .unexpectedEOF
  | l :: rest, o, p =>
    match l.data with
    | [] => consTok (.bline .context "") (collectBody rest (o - 1) (p - 1))
    | ' ' :: cs =>
      consTok (.bline .context (String.mk cs)) (collectBody rest (o - 1) (p - 1))
    | '-' :: cs =>
      consTok (.bline .deletion (String.mk cs)) (collectBody rest (o - 1) p)
    | '+' :: cs =>
      consTok (.bline .insertion (String.mk cs)) (collectBody rest o (p - 1))
    | '\\' :: _ => consTok .marker (collectBody rest o p)
    | _ => .error .unknownLine

/-- Number of body lines of a given classification among the tokens. -/
def countType (t : PartType) : List BodyToken → Nat
  | [] => 0
  | .bline t2 _ :: rest => (if t2 = t then 1 else 0) + countType t rest
  | .marker :: rest => countType t rest

/-- Grouping worker: `t`, `acc` (reversed) and `flag` describe the run being
collected; a marker sets the flag of the current run, a differently
classified line closes it. -/
def groupGo (t : PartType) (acc : List String) (flag : Bool) :
    List BodyToken → List HunkBodyPart
  | [] => [⟨t, acc.reverse, flag⟩]
  | .marker :: rest => groupGo t acc true rest
  | .bline t2 s :: rest =>
    if t2 = t then groupGo t (s :: acc) flag rest
    else ⟨t, acc.reverse, flag⟩ :: groupGo t2 [s] false rest

/-- Modelled from the spec (sections 2, 3): group the classified body lines
of a hunk into maximal runs of equal classification, the no-newline marker
applying to the run it terminates. -/
def groupParts : List BodyToken → List HunkBodyPart
  | [] => []
  | .marker :: rest => groupParts rest
  | .bline t s :: rest => groupGo t [s] false rest

/-- Modelled from the spec (sections 4.2, 4.3): parse the consecutive hunks
of one file entry; each `@@` line must satisfy the header grammar, and each
hunk body must have `context + deletion = original.len` and
`context + insertion = patched.len` total lines. -/
def parseHunks : Nat → List String → Except ParseError (List Hunk × List String)
  | 0, _ => .error .unexpectedEOF
  | _, [] => .ok ([], [])
  | fuel + 1, l :: rest =>
    if startsWithS l "@@" then
      match parseHunkHeader l with
      | none => .error .malformedHeader
      | some hdr =>
        match collectBody rest hdr.original.len hdr.patched.len with
        | .error e => .error e
        | .ok (toks, rest2) =>
          if countType .context toks + countType .deletion toks = hdr.original.len
              ∧ countType .context toks + countType .insertion toks = hdr.patched.len then
            match parseHunks fuel rest2 with
            | .error e => .error e
            | .ok (hs, rest3) => .ok (⟨hdr, groupParts toks⟩ :: hs, rest3)
          else .error .inconsistentHunkCounts
    else .ok ([], l :: rest)

/-- Modelled from the spec (sections 4.1, 4.2): the metadata collected from
the lines of one file entry before its hunks. -/
structure EntryMeta where
  oldMode : Option String := none
  newMode : Option String := none
  renameFrom : Option String := none
  renameTo : Option String := none
  beforeHash : Option String := none
  afterHash : Option String := none
  newFileMode : Option String := none
  deletedFileMode : Option String := none
  minusPath : Option String := none
  plusPath : Option String := none
deriving DecidableEq, Repr

/-- Characters before the first occurrence of `c`. -/
def takeNotChar (c : Char) : List Char → List Char
  | [] => []
  | x :: xs => if x = c then [] else x :: takeNotChar c xs

/-- The list from the first occurrence of `c` on. -/
def dropToChar (c : Char) : List Char → List Char
  | [] => []
  | x :: xs => if x = c then x :: xs else dropToChar c xs

/-- Modelled from the spec (section 6): the `index <before>..<after> [mode]`
payload yields the two abbreviated content hashes. -/
def indexHashes (payload : String) : Option String × Option String :=
  let cs := payload.data
  let before := takeNotChar '.' cs
  match dropToChar '.' cs with
  | '.' :: '.' :: rest2 =>
    (some (String.mk before), some (String.mk (takeNotChar ' ' rest2)))
  | _ => (some (String.mk before), none)

/-- Modelled from the spec (sections 4.1, 4.2): collect the metadata lines of
one file entry, stopping at the first hunk header or at the next
`diff --git` entry; unrecognized lines (such as `similarity index`) are
skipped. -/
def collectMeta : List String → EntryMeta → EntryMeta × List String
  | [], m => (m, [])
  | l :: rest, m =>
    if startsWithS l "@@" then (m, l :: rest)
    else if startsWithS l "diff --git " then (m, l :: rest)
    else if startsWithS l "old mode " then
      collectMeta rest { m with oldMode := some (stripCR (dropS l 9)) }
    else if startsWithS l "new file mode " then
      collectMeta rest { m with newFileMode := some (stripCR (dropS l 14)) }
    else if startsWithS l "new mode " then
      collectMeta rest { m with newMode := some (stripCR (dropS l 9)) }
    else if startsWithS l "deleted file mode " then
      collectMeta rest { m with deletedFileMode := some (stripCR (dropS l 18)) }
    else if startsWithS l "rename from " then
      collectMeta rest { m with renameFrom := some (stripCR (dropS l 12)) }
    else if startsWithS l "rename to " then
      collectMeta rest { m with renameTo := some (stripCR (dropS l 10)) }
    else if startsWithS l "index " then
      collectMeta rest { m with
        beforeHash := (indexHashes (stripCR (dropS l 6))).1,
        afterHash := (indexHashes (stripCR (dropS l 6))).2 }
    else if startsWithS l "--- " then
      collectMeta rest { m with minusPath := some (stripCR (dropS l 4)) }
    else if startsWithS l "+++ " then
      collectMeta rest { m with plusPath := some (stripCR (dropS l 4)) }
    else collectMeta rest m

/-- Strip a leading `a/` or `b/` diff prefix from a path. -/
def stripAB (s : String) : String :=
  match s.data with
  | 'a' :: '/' :: cs => String.mk cs
  | 'b' :: '/' :: cs => String.mk cs
  | _ => s

/-- Modelled from the spec (section 4.2): the path of a file entry, taken
from the `+++` side unless it is `/dev/null`, in which case the `---` side
names the (deleted) file. -/
def entryPath (m : EntryMeta) : Option String :=
  match m.plusPath with
  | some p => if p = "/dev/null" then Option.map stripAB m.minusPath else some (stripAB p)
  | none => Option.map stripAB m.minusPath

/-- Modelled from the spec (section 4.2): a mode string is executable iff its
execute bits are set, i.e. iff any of the last three octal digits is odd. -/
def modeOf (s : String) : FileMode :=
  if (s.data.reverse.take 3).any (fun c => (c.toNat - 48) % 2 == 1) then
    .executable
  else .non_executable

/-- The hunk used when a creation or deletion entry carries no hunk. -/
def emptyHunk : Hunk := ⟨⟨⟨1, 0⟩, ⟨1, 0⟩⟩, []⟩

/-- The rename part of an entry, when both rename lines are present. -/
def renameParts (m : EntryMeta) : List PatchPart :=
  match m.renameFrom, m.renameTo with
  | some f, some t => [.file_rename f t]
  | _, _ => []

/-- The mode-change part of an entry, when both mode lines are present. -/
def modeParts (m : EntryMeta) (path : String) : List PatchPart :=
  match m.oldMode, m.newMode with
  | some o, some n => [.file_mode_change path (modeOf o) (modeOf n)]
  | _, _ => []

/-- The creation, deletion or content-patch part of an entry. -/
def mainParts (m : EntryMeta) (path : String) (hunks : List Hunk) : List PatchPart :=
  match m.newFileMode with
  | some md => [.file_creation path (modeOf md) (hunks.headD emptyHunk) m.afterHash]
  | none =>
    match m.deletedFileMode with
    | some md => [.file_deletion path (modeOf md) (hunks.headD emptyHunk) m.beforeHash]
    | none =>
      if hunks.isEmpty then []
      else [.file_patch path hunks m.beforeHash m.afterHash]

/-- Modelled from the spec (section 4.2): the patch parts emitted for one
file entry, a rename part before a mode-change part before the content part,
matching the ordering of the expected documents. -/
def emitParts (m : EntryMeta) (hunks : List Hunk) : List PatchPart :=
  renameParts m ++ modeParts m ((entryPath m).getD "") ++
    mainParts m ((entryPath m).getD "") hunks

/-- Modelled from the spec (section 4.2): the top-level scan over the lines
of the patch, starting a file entry at each `diff --git` line or (old-style
dialect) at each bare `---` line, and skipping banner and blank lines. -/
def parseTop : Nat → List String → Except ParseError (List PatchPart)
  | 0, _ => .error .unexpectedEOF
  | _, [] => .ok []
  | fuel + 1, l :: rest =>
    if startsWithS l "diff --git " then
      match parseHunks ((collectMeta rest {}).2.length + 1) (collectMeta rest {}).2 with
      | .error e => .error e
      | .ok (hunks, rest3) =>
        match parseTop fuel rest3 with
        | .error e => .error e
        | .ok parts => .ok (emitParts (collectMeta rest {}).1 hunks ++ parts)
    else if startsWithS l "--- " then
      match parseHunks ((collectMeta (l :: rest) {}).2.length + 1) (collectMeta (l :: rest) {}).2 with
      | .error e => .error e
      | .ok (hunks, rest3) =>
        match parseTop fuel rest3 with
        | .error e => .error e
        | .ok parts => .ok (emitParts (collectMeta (l :: rest) {}).1 hunks ++ parts)
    else parseTop fuel rest

/-- Modelled from the spec (section 4.2): `parse` turns unified diff text
into a `PatchFile`, failing with a `ParseError` on nonconforming input. -/
def parse (s : String) : Except ParseError PatchFile :=
  let ls := splitLines s
  match parseTop (ls.length + 1) ls with
  | .error e => .error e
  | .ok parts => .ok ⟨parts⟩

/-- Modelled from the spec (sections 4.4, 6): the error kinds an apply can
fail with, a parse failure being fatal before any filesystem step. -/
inductive ApplyError
  | parseFailed (e : ParseError)
  | pathNotFound
  | alreadyExists
  | contextMismatch
deriving DecidableEq, Repr

/-- Modelled from the spec (section 4.4): the target directory as a mapping
from relative paths to file contents (executable modes are outside this
content model; a mode change leaves the mapping unchanged). -/
abbrev FS := List (String × String)

/-- Content of the file at a path, if present. -/
def fsLookup : FS → String → Option String
  | [], _ => none
  | (q, c) :: rest, p => if q = p then some c else fsLookup rest p

/-- Write the file at a path, replacing existing content. -/
def fsSet : FS → String → String → FS
  | [], p, c => [(p, c)]
  | (q, d) :: rest, p, c =>
    if q = p then (p, c) :: rest else (q, d) :: fsSet rest p c

/-- Remove the file at a path. -/
def fsRemove : FS → String → FS
  | [], _ => []
  | (q, d) :: rest, p => if q = p then rest else (q, d) :: fsRemove rest p

/-- The original-side lines of a hunk: context and deletion lines in part
order. -/
def originalSide (h : Hunk) : List String :=
  h.parts.flatMap (fun p => if p.type = .insertion then [] else p.lines)

/-- The patched-side lines of a hunk: context and insertion lines in part
order. -/
def patchedSide (h : Hunk) : List String :=
  h.parts.flatMap (fun p => if p.type = .deletion then [] else p.lines)

/-- Does the content end in a newline? -/
def endsWithNL (s : String) : Bool :=
  match s.data.getLast? with
  | some c => c = '\n'
  | none => false

/-- Join lines with newline separators, appending a final newline when `nl`
is true. -/
def joinLines (ls : List String) (nl : Bool) : String :=
  match ls with
  | [] => if nl then "\n" else ""
  | [l] => l ++ (if nl then "\n" else "")
  | l :: ls => l ++ "\n" ++ joinLines ls nl

/-- The flag of the last body part across the hunks, governing the final
trailing-newline policy. -/
def lastFlag (hunks : List Hunk) : Option Bool :=
  ((hunks.flatMap Hunk.parts).getLast?).map HunkBodyPart.no_newline_at_end_of_file

/-- Modelled from the spec (section 4.4): apply hunks in order to a line
buffer, maintaining a running offset; the splice point is
`original.start + offset - 1` (0-based), the context and deletion lines must
match there, and the offset advances by the insertion minus deletion count. -/
def applyHunks : List Hunk → Int → List String → Except ApplyError (List String)
  | [], _, lines => .ok lines
  | h :: hs, offset, lines =>
    let i := ((h.header.original.start : Int) + offset - 1).toNat
    let orig := originalSide h
    if (lines.drop i).take orig.length = orig then
      applyHunks hs (offset + (patchedSide h).length - orig.length)
        (lines.take i ++ patchedSide h ++ lines.drop (i + orig.length))
    else .error .contextMismatch

/-- Modelled from the spec (section 4.4): apply one patch part to the
directory contents. -/
def applyPart : FS → PatchPart → Except ApplyError FS
  | fs, .file_rename f t =>
    match fsLookup fs f with
    | none => .error .pathNotFound
    | some c => .ok (fsSet (fsRemove fs f) t c)
  | fs, .file_mode_change _ _ _ => .ok fs
  | fs, .file_creation p _ h _ =>
    match fsLookup fs p with
    | some _ => .error .alreadyExists
    | none =>
      .ok (fsSet fs p (joinLines (patchedSide h) (!((lastFlag [h]).getD false))))
  | fs, .file_deletion p _ _ _ =>
    match fsLookup fs p with
    | none => .error .pathNotFound
    | some _ => .ok (fsRemove fs p)
  | fs, .file_patch p hunks _ _ =>
    match fsLookup fs p with
    | none => .error .pathNotFound
    | some content =>
      match applyHunks hunks 0 (splitLines content) with
      | .error e => .error e
      | .ok ls2 =>
        .ok (fsSet fs p (joinLines ls2
          (match lastFlag hunks with
           | some f => !f
           | none => endsWithNL content)))

/-- Apply the parts of a document in order, aborting on the first failure. -/
def applyParts : FS → List PatchPart → Except ApplyError FS
  | fs, [] => .ok fs
  | fs, p :: ps =>
    match applyPart fs p with
    | .error e => .error e
    | .ok fs2 => applyParts fs2 ps

/-- Modelled from the spec (section 4.4): `apply` parses the patch text and
performs the parts in document order against the directory contents. -/
def apply (text : String) (fs : FS) : Except ApplyError FS :=
  match parse text with
  | .error e => .error (.parseFailed e)
  | .ok doc => applyParts fs doc.parts

/-- Modelled from the spec (section 8): a freshly computed diff between two
directories is empty exactly when their file contents agree byte for byte. -/
def diffIsEmpty (a b : FS) : Prop := a = b

/-- The hunks a patch part carries. -/
def partHunks : PatchPart → List Hunk
  | .file_patch _ hs _ _ => hs
  | .file_creation _ _ h _ => [h]
  | .file_deletion _ _ h _ => [h]
  | .file_rename _ _ => []
  | .file_mode_change _ _ _ => []

/-- The classified lines of a body part sequence, flattened in part order. -/
def flattenParts (ps : List HunkBodyPart) : List (PartType × String) :=
  ps.flatMap (fun p => p.lines.map (fun s => (p.type, s)))

/-- The classified lines among a token sequence, in order. -/
def lineTokens : List BodyToken → List (PartType × String)
  | [] => []
  | .bline t s :: rest => (t, s) :: lineTokens rest
  | .marker :: rest => lineTokens rest

/-- Total number of lines of one classification across a part sequence. -/
def partsCount (t : PartType) : List HunkBodyPart → Nat
  | [] => 0
  | p :: ps => (if p.type = t then p.lines.length else 0) + partsCount t ps

/-- The shape invariant of every accepted hunk: its parts are the grouping of
some token sequence whose line counts satisfy the header. -/
def HunkInv (h : Hunk) : Prop :=
  ∃ toks, h.parts = groupParts toks ∧
    countType .context toks + countType .deletion toks = h.header.original.len ∧
    countType .context toks + countType .insertion toks = h.header.patched.len

/-- Modelled from the spec (sections 6, 8): the unified diff git computes for
the simple-insertion scenario, directory A holding hello.txt `"hello!\n"`
and directory B holding hello.txt `"hello!\nwassup?\n"`, after the test
harness strips the directory prefixes; the full-index blob hashes are
informational placeholders (the spec records that hashes are not used for
applying). -/
def simpleInsertionDiff : String :=
  "diff --git a/hello.txt b/hello.txt\nindex ce013625030ba8dba906f756967f9e9ca394464a..20a194ae5851d1261d972227f9c07b15a7e0f61d 100644\n--- a/hello.txt\n+++ b/hello.txt\n@@ -1 +1,2 @@\n hello!\n+wassup?\n"

/-- Directory A of the simple-insertion scenario. -/
def helloA : FS := [("hello.txt", "hello!\n")]

/-- Directory B (the intended target) of the simple-insertion scenario. -/
def helloB : FS := [("hello.txt", "hello!\nwassup?\n")]

/-- Test fixture `patch`: the canonical banana.ts modification. -/
def patchText : String :=
  "diff --git a/banana.ts b/banana.ts\nindex 2de83dd..842652c 100644\n--- a/banana.ts\n+++ b/banana.ts\n@@ -1,5 +1,5 @@\n this\n is\n \n-a\n+\n file\n"

/-- Test fixture `invalidHeaders1`: patched length declared 4 instead of 5. -/
def invalidHeaders1 : String :=
  "diff --git a/banana.ts b/banana.ts\nindex 2de83dd..842652c 100644\n--- a/banana.ts\n+++ b/banana.ts\n@@ -1,5 +1,4 @@\n this\n is\n\n-a\n+\n file\n"

/-- Test fixture `invalidHeaders2`: original length declared 4 instead of 5. -/
def invalidHeaders2 : String :=
  "diff --git a/banana.ts b/banana.ts\nindex 2de83dd..842652c 100644\n--- a/banana.ts\n+++ b/banana.ts\n@@ -1,4 +1,5 @@\n this\n is\n\n-a\n+\n file\n"

/-- Test fixture `invalidHeaders3`: original length declared 0. -/
def invalidHeaders3 : String :=
  "diff --git a/banana.ts b/banana.ts\nindex 2de83dd..842652c 100644\n--- a/banana.ts\n+++ b/banana.ts\n@@ -1,0 +1,5 @@\n this\n is\n\n-a\n+\n file\n"

/-- Test fixture `invalidHeaders4`: patched length declared 0. -/
def invalidHeaders4 : String :=
  "diff --git a/banana.ts b/banana.ts\nindex 2de83dd..842652c 100644\n--- a/banana.ts\n+++ b/banana.ts\n@@ -1,5 +1,0 @@\n this\n is\n\n-a\n+\n file\n"

/-- Test fixture `invalidHeaders5`: closing `@@` written without the
preceding space. -/
def invalidHeaders5 : String :=
  "diff --git a/banana.ts b/banana.ts\nindex 2de83dd..842652c 100644\n--- a/banana.ts\n+++ b/banana.ts\n@@ -1,5 +1,5@@\n this\n is\n\n-a\n+\n file\n"

/-- Test fixture `accidentalBlankLine`: the blank context line of `patch`
replaced by a fully empty line. -/
def accidentalBlankLineText : String :=
  "diff --git a/banana.ts b/banana.ts\nindex 2de83dd..842652c 100644\n--- a/banana.ts\n+++ b/banana.ts\n@@ -1,5 +1,5 @@\n this\n is\n\n-a\n+\n file\n"

/-- Test fixture `crlfLineBreaks`: a file-creation patch with every newline
written as CRLF. -/
def crlfLineBreaks : String :=
  "diff --git a/banana.ts b/banana.ts\r\nnew file mode 100644\r\nindex 0000000..3e1267f\r\n--- /dev/null\r\n+++ b/banana.ts\r\n@@ -0,0 +1 @@\r\n+this is a new file\r\n"

/-- Test fixture `modeChangeAndModifyAndRename`: a single entry carrying a
rename, a mode change and a content modification. -/
def modeChangeAndModifyAndRename : String :=
  "diff --git a/numbers.txt b/banana.txt\nold mode 100644\nnew mode 100755\nsimilarity index 96%\nrename from numbers.txt\nrename to banana.txt\nindex fbf1785..92d2c5f\n--- a/numbers.txt\n+++ b/banana.txt\n@@ -1,4 +1,4 @@\n-one\n+ne\n\n two\n\n"

/-- Test fixture `oldStylePatch`: a legacy patch-package style patch with a
banner line, no git headers and two concatenated file blocks. -/
def oldStylePatch : String :=
  "patch-package\n--- a/node_modules/graphql/utilities/assertValidName.js\n+++ b/node_modules/graphql/utilities/assertValidName.js\n@@ -41,10 +41,11 @@ function assertValidName(name) \x7b\n  */\n function isValidNameError(name, node) \x7b\n   !(typeof name === 'string') ? (0, _invariant2.default)(0, 'Expected string') : void 0;\n-  if (name.length > 1 && name[0] === '_' && name[1] === '_') \x7b\n-    return new _GraphQLError.GraphQLError('Name \"' + name + '\" must not begin with \"__\", which is reserved by ' + 'GraphQL introspection.', node);\n-  \x7d\n+  // if (name.length > 1 && name[0] === '_' && name[1] === '_') \x7b\n+  //   return new _GraphQLError.GraphQLError('Name \"' + name + '\" must not begin with \"__\", which is reserved by ' + 'GraphQL introspection.', node);\n+  // \x7d\n   if (!NAME_RX.test(name)) \x7b\n     return new _GraphQLError.GraphQLError('Names must match /^[_a-zA-Z][_a-zA-Z0-9]*$/ but \"' + name + '\" does not.', node);\n   \x7d\n+\n \x7d\n\\ No newline at end of file\n--- a/node_modules/graphql/utilities/assertValidName.mjs\n+++ b/node_modules/graphql/utilities/assertValidName.mjs\n@@ -29,9 +29,9 @@ export function assertValidName(name) \x7b\n  */\n export function isValidNameError(name, node) \x7b\n   !(typeof name === 'string') ? invariant(0, 'Expected string') : void 0;\n-  if (name.length > 1 && name[0] === '_' && name[1] === '_') \x7b\n-    return new GraphQLError('Name \"' + name + '\" must not begin with \"__\", which is reserved by ' + 'GraphQL introspection.', node);\n-  \x7d\n+  // if (name.length > 1 && name[0] === '_' && name[1] === '_') \x7b\n+  //   return new GraphQLError('Name \"' + name + '\" must not begin with \"__\", which is reserved by ' + 'GraphQL introspection.', node);\n+  // \x7d\n   if (!NAME_RX.test(name)) \x7b\n     return new GraphQLError('Names must match /^[_a-zA-Z][_a-zA-Z0-9]*$/ but \"' + name + '\" does not.', node);\n   \x7d\n"

/-- The single hunk the test suite expects for the `patch` fixture. -/
def bananaHunk : Hunk :=
  ⟨⟨⟨1, 5⟩, ⟨1, 5⟩⟩,
    [⟨.context, ["this", "is", ""], false⟩,
     ⟨.deletion, ["a"], false⟩,
     ⟨.insertion, [""], false⟩,
     ⟨.context, ["file"], false⟩]⟩

/-- The part the test suite expects for the `patch` fixture. -/
def bananaPart : PatchPart :=
  .file_patch "banana.ts" [bananaHunk] (some "2de83dd") (some "842652c")

/-- The document the test suite expects for the `patch` fixture. -/
def bananaDoc : PatchFile := ⟨[bananaPart]⟩

/-- The document the test suite expects for the `crlfLineBreaks` fixture. -/
def crlfDoc : PatchFile :=
  ⟨[.file_creation "banana.ts" .non_executable
      ⟨⟨⟨1, 0⟩, ⟨1, 1⟩⟩,
        [⟨.insertion, ["this is a new file\r"], false⟩]⟩
      (some "3e1267f")]⟩

/-- The document the test suite expects for the
`modeChangeAndModifyAndRename` fixture. -/
def modeChangeDoc : PatchFile :=
  ⟨[.file_rename "numbers.txt" "banana.txt",
    .file_mode_change "banana.txt" .non_executable .executable,
    .file_patch "banana.txt"
      [⟨⟨⟨1, 4⟩, ⟨1, 4⟩⟩,
        [⟨.deletion, ["one"], false⟩,
         ⟨.insertion, ["ne"], false⟩,
         ⟨.context, ["", "two", ""], false⟩]⟩]
      (some "fbf1785") (some "92d2c5f")]⟩

/-- The document the test suite expects for the `oldStylePatch` fixture. -/
def oldStyleDoc : PatchFile :=
  ⟨[.file_patch "node_modules/graphql/utilities/assertValidName.js"
      [⟨⟨⟨41, 10⟩, ⟨41, 11⟩⟩,
        [⟨.context,
          [" */",
           "function isValidNameError(name, node) \x7b",
           "  !(typeof name === 'string') ? (0, _invariant2.default)(0, 'Expected string') : void 0;"],
          false⟩,
         ⟨.deletion,
          ["  if (name.length > 1 && name[0] === '_' && name[1] === '_') \x7b",
           "    return new _GraphQLError.GraphQLError('Name \"' + name + '\" must not begin with \"__\", which is reserved by ' + 'GraphQL introspection.', node);",
           "  \x7d"],
          false⟩,
         ⟨.insertion,
          ["  // if (name.length > 1 && name[0] === '_' && name[1] === '_') \x7b",
           "  //   return new _GraphQLError.GraphQLError('Name \"' + name + '\" must not begin with \"__\", which is reserved by ' + 'GraphQL introspection.', node);",
           "  // \x7d"],
          false⟩,
         ⟨.context,
          ["  if (!NAME_RX.test(name)) \x7b",
           "    return new _GraphQLError.GraphQLError('Names must match /^[_a-zA-Z][_a-zA-Z0-9]*$/ but \"' + name + '\" does not.', node);",
           "  \x7d"],
          false⟩,
         ⟨.insertion, [""], false⟩,
         ⟨.context, ["\x7d"], true⟩]⟩]
      none none,
    .file_patch "node_modules/graphql/utilities/assertValidName.mjs"
      [⟨⟨⟨29, 9⟩, ⟨29, 9⟩⟩,
        [⟨.context,
          [" */",
           "export function isValidNameError(name, node) \x7b",
           "  !(typeof name === 'string') ? invariant(0, 'Expected string') : void 0;"],
          false⟩,
         ⟨.deletion,
          ["  if (name.length > 1 && name[0] === '_' && name[1] === '_') \x7b",
           "    return new GraphQLError('Name \"' + name + '\" must not begin with \"__\", which is reserved by ' + 'GraphQL introspection.', node);",
           "  \x7d"],
          false⟩,
         ⟨.insertion,
          ["  // if (name.length > 1 && name[0] === '_' && name[1] === '_') \x7b",
           "  //   return new GraphQLError('Name \"' + name + '\" must not begin with \"__\", which is reserved by ' + 'GraphQL introspection.', node);",
           "  // \x7d"],
          false⟩,
         ⟨.context,
          ["  if (!NAME_RX.test(name)) \x7b",
           "    return new GraphQLError('Names must match /^[_a-zA-Z][_a-zA-Z0-9]*$/ but \"' + name + '\" does not.', node);",
           "  \x7d"],
          false⟩]⟩]
      none none]⟩

theorem takeDigits_append (a : List Char) (c : Char) (r : List Char)
    (ga : ∀ x ∈ a, x.isDigit = true) (hc : c.isDigit = false) :
    takeDigits (a ++ c :: r) = (a, c :: r) := by
  induction a with
  | nil => simp [takeDigits, hc]
  | cons x xs ih =>
    have hx : x.isDigit = true := ga x (by simp)
    have ih2 := ih (fun y hy => ga y (by simp [hy]))
    simp [takeDigits, hx, ih2]

theorem parseNumPair_comma_space (a b r : List Char)
    (ha : a ≠ []) (hb : b ≠ [])
    (ga : ∀ x ∈ a, x.isDigit = true) (gb : ∀ x ∈ b, x.isDigit = true) :
    parseNumPair (a ++ ',' :: b ++ ' ' :: r)
      = some (digitsVal a, digitsVal b, ' ' :: r) := by
  obtain ⟨x, xs, rfl⟩ := List.exists_cons_of_ne_nil ha
  obtain ⟨y, ys, rfl⟩ := List.exists_cons_of_ne_nil hb
  have e1 := takeDigits_append (x :: xs) ',' ((y :: ys) ++ ' ' :: r) ga (by decide)
  have e2 := takeDigits_append (y :: ys) ' ' r gb (by decide)
  simp only [List.cons_append, List.append_assoc] at e1 e2 ⊢
  unfold parseNumPair
  rw [e1]
  simp only []
  rw [e2]

theorem parseNumPair_space (a r : List Char)
    (ha : a ≠ []) (ga : ∀ x ∈ a, x.isDigit = true) :
    parseNumPair (a ++ ' ' :: r) = some (digitsVal a, 1, ' ' :: r) := by
  obtain ⟨x, xs, rfl⟩ := List.exists_cons_of_ne_nil ha
  have e1 := takeDigits_append (x :: xs) ' ' r ga (by decide)
  simp only [List.cons_append, List.append_assoc] at e1 ⊢
  unfold parseNumPair
  rw [e1]
  rfl

theorem groupGo_head (toks : List BodyToken) :
    ∀ (t : PartType) (acc : List String) (flag : Bool),
      ∃ ls fl rest, groupGo t acc flag toks = ⟨t, ls, fl⟩ :: rest := by
  induction toks with
  | nil => intro t acc flag; exact ⟨acc.reverse, flag, [], rfl⟩
  | cons tok rest ih =>
    intro t acc flag
    cases tok with
    | marker => simpa [groupGo] using ih t acc true
    | bline t2 s =>
      by_cases h : t2 = t
      · subst h; simpa [groupGo] using ih t2 (s :: acc) flag
      · exact ⟨acc.reverse, flag, groupGo t2 [s] false rest, by simp [groupGo, h]⟩

theorem groupGo_chain (toks : List BodyToken) :
    ∀ (t : PartType) (acc : List String) (flag : Bool),
      List.Chain' (fun a b : HunkBodyPart => a.type ≠ b.type)
        (groupGo t acc flag toks) := by
  induction toks with
  | nil => intro t acc flag; simp [groupGo]
  | cons tok rest ih =>
    intro t acc flag
    cases tok with
    | marker => simpa [groupGo] using ih t acc true
    | bline t2 s =>
      by_cases h : t2 = t
      · subst h; simpa [groupGo] using ih t2 (s :: acc) flag
      · simp only [groupGo, if_neg h]
        refine List.chain'_cons'.mpr ⟨?_, ih t2 [s] false⟩
        intro b hb
        obtain ⟨ls, fl, r2, heq⟩ := groupGo_head rest t2 [s] false
        rw [heq] at hb
        simp only [List.head?_cons, Option.mem_some_iff] at hb
        subst hb
        simpa using fun hh => h hh.symm

theorem groupParts_chain (toks : List BodyToken) :
    List.Chain' (fun a b : HunkBodyPart => a.type ≠ b.type) (groupParts toks) := by
  induction toks with
  | nil => simp [groupParts]
  | cons tok rest ih =>
    cases tok with
    | marker => simpa [groupParts] using ih
    | bline t s => simpa [groupParts] using groupGo_chain rest t [s] false

theorem groupGo_flatten (toks : List BodyToken) :
    ∀ (t : PartType) (acc : List String) (flag : Bool),
      flattenParts (groupGo t acc flag toks)
        = acc.reverse.map (fun s => (t, s)) ++ lineTokens toks := by
  induction toks with
  | nil => intro t acc flag; simp [groupGo, flattenParts, lineTokens]
  | cons tok rest ih =>
    intro t acc flag
    cases tok with
    | marker => simpa [groupGo, lineTokens] using ih t acc true
    | bline t2 s =>
      by_cases h : t2 = t
      · subst h
        have e := ih t2 (s :: acc) flag
        simp [groupGo, e, lineTokens]
      · have e := ih t2 [s] false
        simp [groupGo, h, flattenParts, lineTokens]
        simpa [flattenParts] using e

theorem groupParts_flatten (toks : List BodyToken) :
    flattenParts (groupParts toks) = lineTokens toks := by
  induction toks with
  | nil => simp [groupParts, flattenParts, lineTokens]
  | cons tok rest ih =>
    cases tok with
    | marker => simpa [groupParts, lineTokens] using ih
    | bline t s =>
      have e := groupGo_flatten rest t [s] false
      simpa [groupParts, lineTokens] using e

theorem groupGo_count (toks : List BodyToken) :
    ∀ (t : PartType) (acc : List String) (flag : Bool) (t2 : PartType),
      partsCount t2 (groupGo t acc flag toks)
        = (if t = t2 then acc.length else 0) + countType t2 toks := by
  induction toks with
  | nil => intro t acc flag t2; simp [groupGo, partsCount, countType]
  | cons tok rest ih =>
    intro t acc flag t2
    cases tok with
    | marker => simpa [groupGo, countType] using ih t acc true t2
    | bline t3 s =>
      by_cases h : t3 = t
      · subst h
        rw [show groupGo t3 acc flag (.bline t3 s :: rest) = groupGo t3 (s :: acc) flag rest
              from by simp [groupGo]]
        rw [ih t3 (s :: acc) flag t2]
        simp only [countType, List.length_cons]
        by_cases h2 : t3 = t2
        · simp [h2]; omega
        · simp [h2]
      · rw [show groupGo t acc flag (.bline t3 s :: rest)
              = ⟨t, acc.reverse, flag⟩ :: groupGo t3 [s] false rest
              from by simp [groupGo, h]]
        simp only [partsCount, countType]
        rw [ih t3 [s] false t2]
        by_cases h2 : t = t2 <;> by_cases h3 : t3 = t2 <;>
          simp [h2, h3]

theorem groupParts_count (toks : List BodyToken) (t : PartType) :
    partsCount t (groupParts toks) = countType t toks := by
  induction toks with
  | nil => simp [groupParts, partsCount, countType]
  | cons tok rest ih =>
    cases tok with
    | marker => simpa [groupParts, countType] using ih
    | bline t3 s =>
      have e := groupGo_count rest t3 [s] false t
      by_cases h : t3 = t
      · subst h; simpa [groupParts, countType] using e
      · simpa [groupParts, countType, h] using e

theorem emptyHunk_inv : HunkInv emptyHunk := ⟨[], rfl, rfl, rfl⟩

theorem parseHunks_inv (fuel : Nat) :
    ∀ (lines : List String) (hs : List Hunk) (rest : List String),
      parseHunks fuel lines = .ok (hs, rest) → ∀ h ∈ hs, HunkInv h := by
  induction fuel with
  | zero => intro lines hs rest hEq; simp [parseHunks] at hEq
  | succ n ih =>
    intro lines hs rest hEq h hmem
    cases lines with
    | nil =>
      simp only [parseHunks, Except.ok.injEq, Prod.mk.injEq] at hEq
      obtain ⟨rfl, rfl⟩ := hEq
      cases hmem
    | cons l rest0 =>
      simp only [parseHunks] at hEq
      split at hEq
      · split at hEq
        · cases hEq
        · rename_i hdr hhdr
          split at hEq
          · cases hEq
          · rename_i toks rest2 hcb
            split at hEq
            · rename_i hcond
              split at hEq
              · cases hEq
              · rename_i hs2 rest3 hrec
                simp only [Except.ok.injEq, Prod.mk.injEq] at hEq
                obtain ⟨rfl, rfl⟩ := hEq
                rcases List.mem_cons.mp hmem with rfl | hmem2
                · exact ⟨toks, rfl, hcond.1, hcond.2⟩
                · exact ih _ _ _ hrec h hmem2
            · cases hEq
      · simp only [Except.ok.injEq, Prod.mk.injEq] at hEq
        obtain ⟨rfl, rfl⟩ := hEq
        cases hmem

theorem emitParts_inv (m : EntryMeta) (hunks : List Hunk)
    (hall : ∀ h ∈ hunks, HunkInv h) :
    ∀ p ∈ emitParts m hunks, ∀ h ∈ partHunks p, HunkInv h := by
  have hheadD : HunkInv (hunks.headD emptyHunk) := by
    cases hunks with
    | nil => exact emptyHunk_inv
    | cons a t => exact hall a (by simp)
  intro p hp h hh
  rcases List.mem_append.mp hp with hp12 | hp3
  · rcases List.mem_append.mp hp12 with hp1 | hp2
    · unfold renameParts at hp1
      split at hp1
      · rcases List.mem_singleton.mp hp1 with rfl
        simp [partHunks] at hh
      · cases hp1
    · unfold modeParts at hp2
      split at hp2
      · rcases List.mem_singleton.mp hp2 with rfl
        simp [partHunks] at hh
      · cases hp2
  · unfold mainParts at hp3
    split at hp3
    · rcases List.mem_singleton.mp hp3 with rfl
      simp only [partHunks] at hh
      rcases List.mem_singleton.mp hh with rfl
      exact hheadD
    · split at hp3
      · rcases List.mem_singleton.mp hp3 with rfl
        simp only [partHunks] at hh
        rcases List.mem_singleton.mp hh with rfl
        exact hheadD
      · split at hp3
        · cases hp3
        · rcases List.mem_singleton.mp hp3 with rfl
          simp only [partHunks] at hh
          exact hall h hh

theorem parseTop_inv (fuel : Nat) :
    ∀ (lines : List String) (parts : List PatchPart),
      parseTop fuel lines = .ok parts →
        ∀ p ∈ parts, ∀ h ∈ partHunks p, HunkInv h := by
  induction fuel with
  | zero => intro lines parts hEq; simp [parseTop] at hEq
  | succ n ih =>
    intro lines parts hEq p hp h hh
    cases lines with
    | nil =>
      simp only [parseTop, Except.ok.injEq] at hEq
      subst hEq
      cases hp
    | cons l rest0 =>
      simp only [parseTop] at hEq
      split at hEq
      · split at hEq
        · cases hEq
        · rename_i hunks rest3 hhunks
          split at hEq
          · cases hEq
          · rename_i parts2 hrec
            simp only [Except.ok.injEq] at hEq
            subst hEq
            rcases List.mem_append.mp hp with hp1 | hp2
            · exact emitParts_inv _ hunks (parseHunks_inv _ _ _ _ hhunks) p hp1 h hh
            · exact ih _ _ hrec p hp2 h hh
      · split at hEq
        · split at hEq
          · cases hEq
          · rename_i hunks rest3 hhunks
            split at hEq
            · cases hEq
            · rename_i parts2 hrec
              simp only [Except.ok.injEq] at hEq
              subst hEq
              rcases List.mem_append.mp hp with hp1 | hp2
              · exact emitParts_inv _ hunks (parseHunks_inv _ _ _ _ hhunks) p hp1 h hh
              · exact ih _ _ hrec p hp2 h hh
        · exact ih _ _ hEq p hp h hh

theorem parse_inv (s : String) (doc : PatchFile) (hok : parse s = .ok doc) :
    ∀ p ∈ doc.parts, ∀ h ∈ partHunks p, HunkInv h := by
  simp only [parse] at hok
  split at hok
  · cases hok
  · rename_i parts hEq
    simp only [Except.ok.injEq] at hok
    subst hok
    exact parseTop_inv _ _ _ hEq

/-- C1: parsing the canonical banana.ts patch succeeds and returns exactly
one part, a FilePatch for "banana.ts" with before hash 2de83dd and after
hash 842652c, whose single hunk has header original {1,5} / patched {1,5}
and body parts context[this,is,""], deletion[a], insertion[""],
context[file], each with the no-newline flag false. -/
theorem c1_simple_case_parse : parse patchText = Except.ok bananaDoc := rfl

/-- C2: each of the five malformed-header fixture variants makes parse fail
(the four count mismatches through the hunk validator, the missing space
before the closing marker through the header grammar), and every hunk the
hunk parser accepts satisfies the validator equations
context + deletion = original.len and context + insertion = patched.len,
counting total lines across all body parts. -/
theorem c2_invalid_headers_rejected :
    parse invalidHeaders1 = Except.error ParseError.inconsistentHunkCounts ∧
    parse invalidHeaders2 = Except.error ParseError.inconsistentHunkCounts ∧
    parse invalidHeaders3 = Except.error ParseError.inconsistentHunkCounts ∧
    parse invalidHeaders4 = Except.error ParseError.inconsistentHunkCounts ∧
    parse invalidHeaders5 = Except.error ParseError.malformedHeader ∧
    ∀ (fuel : Nat) (lines : List String) (hs : List Hunk) (rest : List String),
      parseHunks fuel lines = Except.ok (hs, rest) →
      ∀ h ∈ hs,
        partsCount .context h.parts + partsCount .deletion h.parts
          = h.header.original.len ∧
        partsCount .context h.parts + partsCount .insertion h.parts
          = h.header.patched.len := by
  refine ⟨rfl, rfl, rfl, rfl, rfl, ?_⟩
  intro fuel lines hs rest hEq h hmem
  obtain ⟨toks, hp, ho, hpp⟩ := parseHunks_inv fuel lines hs rest hEq h hmem
  rw [hp]
  simp only [groupParts_count]
  exact ⟨ho, hpp⟩

/-- Witness for C2: the accepted banana.ts hunk satisfies both validator
equations with total count 5. -/
theorem c2_invalid_headers_rejected_witness :
    partsCount .context bananaHunk.parts + partsCount .deletion bananaHunk.parts = 5 ∧
    partsCount .context bananaHunk.parts + partsCount .insertion bananaHunk.parts = 5 :=
  c2_invalid_headers_rejected.2.2.2.2.2 7
    ["@@ -1,5 +1,5 @@", " this", " is", " ", "-a", "+", " file"]
    [bananaHunk] [] rfl bananaHunk (List.mem_singleton.mpr rfl)

/-- C3: the unified diff computed between directory A (hello.txt
"hello!\n") and directory B (hello.txt "hello!\nwassup?\n") applies cleanly
to A, leaving hello.txt byte-for-byte equal to B's content, so the fresh
diff between the patched A and B is empty. -/
theorem c3_simple_insertion_roundtrip :
    ∃ fs2, Patch.apply simpleInsertionDiff helloA = Except.ok fs2 ∧
      fsLookup fs2 "hello.txt" = some "hello!\nwassup?\n" ∧
      diffIsEmpty fs2 helloB :=
  ⟨helloB, rfl, rfl, rfl⟩

/-- C4: the rename + mode change + modification entry parses to exactly
three parts in order: FileRename numbers.txt → banana.txt, FileModeChange
banana.txt non-executable → executable, and the FilePatch for banana.txt
with hashes fbf1785 / 92d2c5f. -/
theorem c4_rename_mode_change_patch :
    parse modeChangeAndModifyAndRename = Except.ok modeChangeDoc := rfl

/-- C5: the old-style concatenated patch with a banner line parses to
exactly two FilePatch parts, one per `---`/`+++` block in textual order,
each with both hashes null. -/
theorem c5_old_style_two_file_patches :
    parse oldStylePatch = Except.ok oldStyleDoc := rfl

/-- C7: an accidentally fully blank line in place of the space-prefixed
blank context line parses to a document structurally equal to the canonical
patch's document. -/
theorem c7_accidental_blank_line_equiv :
    parse accidentalBlankLineText = parse patchText := rfl

/-- C8: the CRLF-encoded file-creation patch parses to exactly one
FileCreation for banana.ts, non-executable, hash 3e1267f, whose single
insertion line keeps the carriage return verbatim. -/
theorem c8_crlf_creation : parse crlfLineBreaks = Except.ok crlfDoc := rfl

/-- Counterexample to C6 as stated: the file-creation header yields
original start 1, not the claimed start 0 (the parser normalizes a written
start of 0 to 1, as the repository's own fixture expects). -/
theorem c6_zero_start_counterexample :
    parseHunkHeader "@@ -0,0 +1 @@" = some ⟨⟨1, 0⟩, ⟨1, 1⟩⟩ ∧
    ¬ parseHunkHeader "@@ -0,0 +1 @@" = some ⟨⟨0, 0⟩, ⟨1, 1⟩⟩ :=
  ⟨rfl, by decide⟩

/-- C6 (amended): for every hunk header line of the accepted grammar, the
recorded lengths are exactly as written (a missing length defaulting to 1)
and the recorded starts are as written except that a start of 0 is
normalized to 1; in particular "@@ -0,0 +1 @@" yields original {1,0} and
patched {1,1}. -/
theorem c6_hunk_header_grammar_amended
    (d1 d2 d3 d4 tl : List Char)
    (h1 : d1 ≠ []) (h2 : d2 ≠ []) (h3 : d3 ≠ []) (h4 : d4 ≠ [])
    (g1 : ∀ c ∈ d1, c.isDigit = true) (g2 : ∀ c ∈ d2, c.isDigit = true)
    (g3 : ∀ c ∈ d3, c.isDigit = true) (g4 : ∀ c ∈ d4, c.isDigit = true) :
    parseHunkHeader (String.mk ('@' :: '@' :: ' ' :: '-' ::
        (d1 ++ ',' :: d2 ++ ' ' :: '+' :: d3 ++ ',' :: d4 ++ ' ' :: '@' :: '@' :: tl)))
      = some ⟨⟨max (digitsVal d1) 1, digitsVal d2⟩,
              ⟨max (digitsVal d3) 1, digitsVal d4⟩⟩ ∧
    parseHunkHeader (String.mk ('@' :: '@' :: ' ' :: '-' ::
        (d1 ++ ' ' :: '+' :: d3 ++ ' ' :: '@' :: '@' :: tl)))
      = some ⟨⟨max (digitsVal d1) 1, 1⟩, ⟨max (digitsVal d3) 1, 1⟩⟩ ∧
    parseHunkHeader "@@ -0,0 +1 @@" = some ⟨⟨1, 0⟩, ⟨1, 1⟩⟩ := by
  refine ⟨?_, ?_, rfl⟩
  · have e1 := parseNumPair_comma_space d1 d2
      ('+' :: d3 ++ ',' :: d4 ++ ' ' :: '@' :: '@' :: tl) h1 h2 g1 g2
    have e2 := parseNumPair_comma_space d3 d4 ('@' :: '@' :: tl) h3 h4 g3 g4
    simp only [List.cons_append, List.append_assoc] at e1 e2
    simp only [parseHunkHeader, List.cons_append, List.append_assoc, e1, e2]
  · have e1 := parseNumPair_space d1 ('+' :: d3 ++ ' ' :: '@' :: '@' :: tl) h1 g1
    have e2 := parseNumPair_space d3 ('@' :: '@' :: tl) h3 g3
    simp only [List.cons_append, List.append_assoc] at e1 e2
    simp only [parseHunkHeader, List.cons_append, List.append_assoc, e1, e2]

/-- Witness for the amended C6: both grammar forms at the concrete numbers
of the old-style fixture header. -/
theorem c6_hunk_header_grammar_witness :
    parseHunkHeader (String.mk ('@' :: '@' :: ' ' :: '-' ::
        (['4', '1'] ++ ',' :: ['1', '0'] ++ ' ' :: '+' :: ['4', '1'] ++ ',' :: ['1', '1'] ++ ' ' :: '@' :: '@' :: [])))
      = some ⟨⟨41, 10⟩, ⟨41, 11⟩⟩ ∧
    parseHunkHeader (String.mk ('@' :: '@' :: ' ' :: '-' ::
        (['4', '1'] ++ ' ' :: '+' :: ['4', '1'] ++ ' ' :: '@' :: '@' :: [])))
      = some ⟨⟨41, 1⟩, ⟨41, 1⟩⟩ := by
  have h := c6_hunk_header_grammar_amended ['4', '1'] ['1', '0'] ['4', '1'] ['1', '1'] []
    (by decide) (by decide) (by decide) (by decide)
    (by decide) (by decide) (by decide) (by decide)
  exact ⟨h.1, h.2.1⟩

/-- C9: in every document a successful parse returns, each hunk's body parts
form maximal runs of equally classified lines: no two consecutive parts
share a type, and the parts are the run-grouping of a classified line
sequence that their concatenation reproduces in original order. -/
theorem c9_body_parts_maximal_runs (s : String) (doc : PatchFile)
    (hok : parse s = Except.ok doc) :
    ∀ p ∈ doc.parts, ∀ hk ∈ partHunks p,
      List.Chain' (fun a b : HunkBodyPart => a.type ≠ b.type) hk.parts ∧
      ∃ toks, hk.parts = groupParts toks ∧
        flattenParts hk.parts = lineTokens toks := by
  intro p hp hk hhk
  obtain ⟨toks, hparts, ho, hpp⟩ := parse_inv s doc hok p hp hk hhk
  refine ⟨?_, toks, hparts, ?_⟩
  · rw [hparts]; exact groupParts_chain toks
  · rw [hparts]; exact groupParts_flatten toks

/-- Witness for C9: the hunk of the parsed banana.ts patch. -/
theorem c9_body_parts_maximal_runs_witness :
    List.Chain' (fun a b : HunkBodyPart => a.type ≠ b.type) bananaHunk.parts ∧
    ∃ toks, bananaHunk.parts = groupParts toks ∧
      flattenParts bananaHunk.parts = lineTokens toks :=
  c9_body_parts_maximal_runs patchText bananaDoc rfl bananaPart
    (List.mem_singleton.mpr rfl) bananaHunk (List.mem_singleton.mpr rfl)

/-- C10: a hunk header line carrying arbitrary trailing text after the
closing marker (git's function-context annotation) is accepted, with the
numeric fields parsed exactly as if the trailing text were absent, and the
old-style fixture containing such a header parses successfully. -/
theorem c10_header_trailing_text :
    parseHunkHeader "@@ -41,10 +41,11 @@ function assertValidName(name) \x7b"
      = parseHunkHeader "@@ -41,10 +41,11 @@" ∧
    parseHunkHeader "@@ -41,10 +41,11 @@ function assertValidName(name) \x7b"
      = some ⟨⟨41, 10⟩, ⟨41, 11⟩⟩ ∧
    (parse oldStylePatch).isOk = true :=
  ⟨rfl, rfl, rfl⟩

end Patch
